import Mathlib

/-!
Shallow embedding of the AI token wheel frontend (SvelteKit) in Lean 4.

set_option autoImplicit false

JavaScript strings are modelled as lists of characters, JavaScript numbers as
rationals, and `undefined` / nullable fields as `Option`.  Each definition
below mirrors one function or reactive value of the sources:

* `calculateWedges`, `Wedge`            — src/frontend/src/lib/utils/wheel.ts
* `selectRandomToken`, `SelectedToken`  — the spinner utility (selectRandomToken)
* `SessionStore` and its methods        — the session store ($state class)
* `getNextTokenProbs`                   — src/frontend/src/lib/api/client.ts
* `handleSubmit`                        — the prompt-input component
* `handleSpin` (its selection request)  — the wheel page
* `popLast`, `historyCurrentText`       — modelled from the spec (backend Token
                                          History, absent from the sources)

The only deliberate deviation from the sources is that `Math.random()` is made
an explicit parameter `random`, so that the sampling functions are pure.
-/

/-- JavaScript strings, modelled as lists of characters. -/
abbrev JSString := List Char

/-- TokenData record: `{ token_id, token_text, probability }`. -/
structure TokenData where
  token_id : Nat
  token_text : JSString
  probability : ℚ
  deriving Repr, DecidableEq

/-- OtherCategory record: `{ total_probability, token_count, sample_tokens }`. -/
structure OtherCategory where
  total_probability : ℚ
  token_count : Nat
  sample_tokens : List TokenData
  deriving Repr, DecidableEq

/-- Wedge record from wheel.ts. -/
structure Wedge where
  tokenId : Option Nat
  tokenText : JSString
  probability : ℚ
  startAngle : ℚ
  endAngle : ℚ
  isOther : Bool
  deriving Repr, DecidableEq

/-- Sum of the probabilities of a token list (used to describe the loop state). -/
def tokenProbSum (tokens : List TokenData) : ℚ :=
  (tokens.map TokenData.probability).sum

/-- The for-loop of `calculateWedges` over the above-threshold tokens: given the
running `currentAngle`, it returns the final angle together with the wedges
pushed for the tokens.  Each wedge spans `probability * 360` degrees. -/
def calculateWedgesGo (currentAngle : ℚ) : List TokenData → ℚ × List Wedge
  | [] => (currentAngle, [])
  | t :: ts =>
    let angleSize := t.probability * 360
    let w : Wedge :=
      { tokenId := some t.token_id
        tokenText := t.token_text
        probability := t.probability
        startAngle := currentAngle
        endAngle := currentAngle + angleSize
        isOther := false }
    let rest := calculateWedgesGo (currentAngle + angleSize) ts
    (rest.1, w :: rest.2)

/-- calculateWedges from wheel.ts: wedges start at -90 degrees (12 o'clock); the
"Other" wedge is appended exactly when `otherCategory.total_probability > 0`. -/
def calculateWedges (tokens : List TokenData) (otherCategory : OtherCategory) :
    List Wedge :=
  let p := calculateWedgesGo (-90) tokens
  if 0 < otherCategory.total_probability then
    let angleSize := otherCategory.total_probability * 360
    p.2 ++
      [{ tokenId := none
         tokenText := "Other".toList
         probability := otherCategory.total_probability
         startAngle := p.1
         endAngle := p.1 + angleSize
         isOther := true }]
  else
    p.2

/-- SelectedToken record from the spinner utility; `token_id`, `token_text` and
`wedge` are optional because the "Other" entry leaves them undefined. -/
structure SelectedToken where
  token_id : Option Nat
  token_text : Option JSString
  probability : ℚ
  isOther : Bool
  wedge : Option Wedge
  deriving Repr, DecidableEq

/-- The weighted entries built from the above-threshold tokens in
`selectRandomToken` (`tokens.map((t, i) => ...)`), pairing each token with the
wedge at its index. -/
def tokenCandidates (tokens : List TokenData) (wedges : List Wedge) :
    List SelectedToken :=
  tokens.enum.map fun p =>
    { token_id := some p.2.token_id
      token_text := some p.2.token_text
      probability := p.2.probability
      isOther := false
      wedge := wedges[p.1]? }

/-- The trailing "Other" entry appended in `selectRandomToken`; its wedge is the
one at index `tokens.length` (the last wedge). -/
def otherCandidate (oc : OtherCategory) (tokens : List TokenData)
    (wedges : List Wedge) : SelectedToken :=
  { token_id := none
    token_text := none
    probability := oc.total_probability
    isOther := true
    wedge := wedges[tokens.length]? }

/-- The `allTokens` array of `selectRandomToken`: the weighted token entries
followed by the "Other" entry (always appended). -/
def allCandidates (tokens : List TokenData) (oc : OtherCategory)
    (wedges : List Wedge) : List SelectedToken :=
  tokenCandidates tokens wedges ++ [otherCandidate oc tokens wedges]

/-- The cumulative-probability loop of `selectRandomToken`: starting from the
running sum `cumulative`, add each entry's probability and return the first
entry for which `random <= cumulative`; `none` when the loop falls through. -/
def selectLoop (random : ℚ) : ℚ → List SelectedToken → Option SelectedToken
  | _, [] => none
  | cumulative, t :: ts =>
    let c := cumulative + t.probability
    if random ≤ c then some t else selectLoop random c ts

/-- selectRandomToken from the spinner utility, with the `Math.random()` draw
made an explicit parameter `random`.  It walks `allCandidates` accumulating
probability mass and returns the first entry whose cumulative mass reaches
`random`; if the loop falls through it returns the last entry (the fallback
`allTokens[allTokens.length - 1]`). -/
def selectRandomToken (tokens : List TokenData) (oc : OtherCategory)
    (wedges : List Wedge) (random : ℚ) : SelectedToken :=
  match selectLoop random 0 (allCandidates tokens oc wedges) with
  | some t => t
  | none =>
    (allCandidates tokens oc wedges).getLast (by simp [allCandidates])

/-- TokenHistoryItem record of the session store. -/
structure TokenHistoryItem where
  token_id : Nat
  token_text : JSString
  probability : ℚ
  category : JSString
  selected_at : JSString
  sampled_from_other : Option Bool
  deriving Repr, DecidableEq

/-- The `SessionStore` class (Svelte `$state` fields). -/
structure SessionStore where
  sessionId : Option JSString
  modelName : JSString
  initialPrompt : JSString
  currentText : JSString
  tokenHistory : List TokenHistoryItem
  aboveThresholdTokens : List TokenData
  otherCategory : OtherCategory
  isLoading : Bool
  error : Option JSString
  isSpinning : Bool
  deriving Repr, DecidableEq

/-- Derived value `canUndo = this.tokenHistory.length > 0`. -/
def SessionStore.canUndo (s : SessionStore) : Bool :=
  s.tokenHistory.length > 0

/-- Derived value `generatedText`: empty when `initialPrompt` is falsy (the
empty string), otherwise `currentText.substring(initialPrompt.length)`. -/
def SessionStore.generatedText (s : SessionStore) : JSString :=
  if s.initialPrompt = [] then [] else s.currentText.drop s.initialPrompt.length

/-- Method `setPrompt(prompt)` of the session store. -/
def SessionStore.setPrompt (s : SessionStore) (prompt : JSString) :
    SessionStore :=
  { s with initialPrompt := prompt, currentText := prompt, tokenHistory := [] }

/-- The `disabled` expression of the "Undo Last Token" button on the wheel
page: `!sessionStore.canUndo || sessionStore.isLoading ||
sessionStore.isSpinning`. -/
def undoButtonDisabled (s : SessionStore) : Bool :=
  !s.canUndo || s.isLoading || s.isSpinning

/-- JavaScript `String.prototype.trim`: strip whitespace from both ends. -/
def jsTrim (s : JSString) : JSString :=
  ((s.dropWhile Char.isWhitespace).reverse.dropWhile Char.isWhitespace).reverse

/-- handleSubmit from the prompt-input component, returning whether `onSubmit`
is invoked: the body runs `onSubmit()` iff `prompt.trim().length > 0`. -/
def handleSubmit (prompt : JSString) : Bool :=
  (jsTrim prompt).length > 0

/-- The query parameters sent by `getNextTokenProbs` in client.ts. -/
structure NextTokenProbsRequest where
  sessionId : JSString
  threshold : ℚ
  temperature : ℚ
  deriving Repr, DecidableEq

/-- getNextTokenProbs from client.ts with both optional arguments supplied:
it builds the `URLSearchParams` from exactly these two values. -/
def getNextTokenProbs (sessionId : JSString) (threshold temperature : ℚ) :
    NextTokenProbsRequest :=
  { sessionId := sessionId, threshold := threshold, temperature := temperature }

/-- A call of `getNextTokenProbs(sessionId)` that omits both optional
arguments: JavaScript default parameters substitute `threshold = 0.01` and
`temperature = 1.0`. -/
def getNextTokenProbsNoOpts (sessionId : JSString) : NextTokenProbsRequest :=
  getNextTokenProbs sessionId (1 / 100) 1

/-- The `(key, value)` list put into the `URLSearchParams` of the request. -/
def nextTokenProbsParams (r : NextTokenProbsRequest) : List (JSString × ℚ) :=
  [("threshold".toList, r.threshold), ("temperature".toList, r.temperature)]

/-- The selection payload passed to `handleTokenSelect` / `appendToken`:
`{ token_id?, token_text?, category? }`. -/
structure SelectionRequest where
  token_id : Option Nat
  token_text : Option JSString
  category : Option JSString
  deriving Repr, DecidableEq

/-- The selection request issued by `handleSpin` on the wheel page once the
spin animation finishes: `{ category: 'other' }` when the selected entry
`isOther`, and `{ token_id, token_text }` otherwise.  `handleSpin` computes the
wedges itself via `calculateWedges` and draws via `selectRandomToken`; the
draw is the explicit parameter `random`. -/
def handleSpin (tokens : List TokenData) (oc : OtherCategory) (random : ℚ) :
    SelectionRequest :=
  let wedges := calculateWedges tokens oc
  let selectedToken := selectRandomToken tokens oc wedges random
  if selectedToken.isOther then
    { token_id := none, token_text := none, category := some "other".toList }
  else
    { token_id := selectedToken.token_id
      token_text := selectedToken.token_text
      category := none }

/-- Modelled from the spec: the backend Token History component is not among
the source files (only the frontend is); section 4.3 of the design specifies
that `popLast` removes and returns the most recently appended entry and fails
with an EmptyHistory condition if the history is empty. -/
def popLast (history : List TokenHistoryItem) :
    Option (List TokenHistoryItem × TokenHistoryItem) :=
  match history.getLast? with
  | none => none
  | some e => some (history.dropLast, e)

/-- Modelled from the spec: the backend derives `currentText` by concatenating
the initial prompt with each history entry's token text in order (section 4.3);
this derivation is not among the source files. -/
def historyCurrentText (prompt : JSString) (history : List TokenHistoryItem) :
    JSString :=
  prompt ++ (history.map TokenHistoryItem.token_text).flatten

/-- A session-store state with an empty (falsy) initial prompt and the
remaining fields at their reset values. -/
def emptyPromptStore : SessionStore :=
  { sessionId := none
    modelName := []
    initialPrompt := []
    currentText := 'a' :: 'b' :: []
    tokenHistory := []
    aboveThresholdTokens := []
    otherCategory := { total_probability := 0, token_count := 0, sample_tokens := [] }
    isLoading := false
    error := none
    isSpinning := false }

/-- A store whose current text is the one-character prompt followed by one
generated character. -/
def promptStore : SessionStore :=
  { emptyPromptStore with
      initialPrompt := 'p' :: []
      currentText := 'p' :: 'q' :: [] }

/-- A token-history entry used in concrete states below. -/
def historyItem : TokenHistoryItem :=
  { token_id := 5
    token_text := 'x' :: []
    probability := 1 / 10
    category := "above_threshold".toList
    selected_at := []
    sampled_from_other := none }

/-- A store with one history entry that is currently loading. -/
def loadingStore : SessionStore :=
  { emptyPromptStore with tokenHistory := [historyItem], isLoading := true }

/-- A wedge list is chained from angle `a` when its first wedge starts at `a`
and every wedge starts where its predecessor ends. -/
def Chained : ℚ → List Wedge → Prop
  | _, [] => True
  | a, w :: ws => w.startAngle = a ∧ Chained w.endAngle ws

/-- Token list and other bucket used as concrete witness inputs. -/
def tokensHalf : List TokenData :=
  [{ token_id := 1, token_text := 'a' :: [], probability := 1 / 2 }]

/-- An other bucket holding half of the probability mass. -/
def ocHalf : OtherCategory :=
  { total_probability := 1 / 2, token_count := 7, sample_tokens := [] }

/-- Probability mass carried by a list of candidate entries. -/
def candProbSum (l : List SelectedToken) : ℚ :=
  (l.map SelectedToken.probability).sum

/-- Cumulative probability mass of the first `k` candidate entries. -/
def cumProb (l : List SelectedToken) (k : Nat) : ℚ :=
  candProbSum (l.take k)

/-- Two above-threshold tokens carrying masses 1/2 and 1/4. -/
def tokensTwo : List TokenData :=
  [{ token_id := 1, token_text := 'a' :: [], probability := 1 / 2 },
   { token_id := 2, token_text := 'b' :: [], probability := 1 / 4 }]

/-- An other bucket carrying the remaining 1/4 of the mass. -/
def ocQuarter : OtherCategory :=
  { total_probability := 1 / 4, token_count := 3, sample_tokens := [] }

/-- An other bucket with zero mass (an empty tail). -/
def ocZero : OtherCategory :=
  { total_probability := 0, token_count := 0, sample_tokens := [] }

/-- C3: `setPrompt p` sets `initialPrompt` to `p`, sets `currentText` to
exactly `p`, and resets the token history to the empty sequence, for every
prior store state (including one with non-empty history from an earlier
prompt). -/
theorem setPrompt_resets (s : SessionStore) (p : JSString) :
    (s.setPrompt p).initialPrompt = p ∧ (s.setPrompt p).currentText = p ∧
      (s.setPrompt p).tokenHistory = [] :=
  ⟨rfl, rfl, rfl⟩

/-- C2 fails as stated: in this state `currentText` equals
`initialPrompt ++ "ab"`, yet `generatedText` is the empty string rather than
`"ab"`, because the derivation returns the empty string whenever the prompt is
falsy (empty). -/
theorem generatedText_empty_prompt_cex :
    emptyPromptStore.currentText =
        emptyPromptStore.initialPrompt ++ ('a' :: 'b' :: []) ∧
      emptyPromptStore.generatedText ≠ 'a' :: 'b' :: [] := by
  refine ⟨rfl, ?_⟩
  simp [SessionStore.generatedText, emptyPromptStore]

/-- C2 (amended): when the initial prompt is non-empty and the current text is
the prompt followed by a suffix, `generatedText` equals exactly that suffix
(the current text with the prompt removed), and the current text is
recoverable as the prompt concatenated with `generatedText`; when the prompt
is empty the derivation returns the empty string instead. -/
theorem generatedText_recovers_suffix (s : SessionStore) (suffix : JSString)
    (hp : s.initialPrompt ≠ [])
    (hc : s.currentText = s.initialPrompt ++ suffix) :
    s.generatedText = suffix ∧
      s.currentText = s.initialPrompt ++ s.generatedText := by
  have h : s.generatedText = suffix := by
    simp [SessionStore.generatedText, hp, hc, List.drop_left]
  exact ⟨h, by rw [h, hc]⟩

/-- Witness for C2's amended theorem at the concrete store `promptStore`. -/
theorem generatedText_recovers_suffix_witness :
    promptStore.generatedText = 'q' :: [] ∧
      promptStore.currentText =
        promptStore.initialPrompt ++ promptStore.generatedText :=
  generatedText_recovers_suffix promptStore ('q' :: []) (by decide) (by decide)

/-- C7: handleSubmit does not invoke `onSubmit` when the trimmed prompt is
empty; the submission is rejected before any call is made. -/
theorem handleSubmit_rejects_blank (prompt : JSString)
    (h : (jsTrim prompt).length = 0) : handleSubmit prompt = false := by
  simp [handleSubmit, h]

/-- Witness for C7 at the concrete all-whitespace prompt of two spaces. -/
theorem handleSubmit_rejects_blank_witness :
    (jsTrim (' ' :: ' ' :: [])).length = 0 ∧
      handleSubmit (' ' :: ' ' :: []) = false :=
  ⟨by decide, handleSubmit_rejects_blank _ (by decide)⟩

/-- C8: a `getNextTokenProbs` call omitting threshold and temperature sends
exactly threshold 0.01 and temperature 1.0 as the request parameters. -/
theorem getNextTokenProbs_defaults (sessionId : JSString) :
    (getNextTokenProbsNoOpts sessionId).threshold = 1 / 100 ∧
      (getNextTokenProbsNoOpts sessionId).temperature = 1 ∧
      nextTokenProbsParams (getNextTokenProbsNoOpts sessionId) =
        [("threshold".toList, 1 / 100), ("temperature".toList, 1)] :=
  ⟨rfl, rfl, rfl⟩

/-- C5 fails as stated: in `loadingStore` the token history is non-empty, yet
the undo control is disabled because the store is loading — so "enabled exactly
when the history is non-empty" does not hold. -/
theorem undo_enabled_cex :
    0 < loadingStore.tokenHistory.length ∧
      undoButtonDisabled loadingStore = true := by
  refine ⟨by decide, ?_⟩
  rfl

/-- C5 (amended): `canUndo` is true iff the token history is non-empty; the
undo control is enabled iff `canUndo` holds and the store is neither loading
nor spinning; the spec-modelled backend `popLast` fails exactly on an empty
history (the CannotUndo / EmptyHistory condition) and, on success, the
remaining current text still begins with the initial prompt, so no prompt
characters are ever removed. -/
theorem canUndo_popLast_spec :
    (∀ s : SessionStore, s.canUndo = true ↔ 0 < s.tokenHistory.length) ∧
    (∀ s : SessionStore, undoButtonDisabled s = false ↔
        (s.canUndo = true ∧ s.isLoading = false ∧ s.isSpinning = false)) ∧
    (∀ h : List TokenHistoryItem, popLast h = none ↔ h = []) ∧
    (∀ (prompt : JSString) (h h2 : List TokenHistoryItem)
        (e : TokenHistoryItem), popLast h = some (h2, e) →
          ∃ t, historyCurrentText prompt h2 = prompt ++ t) := by
  refine ⟨?_, ?_, ?_, ?_⟩
  · intro s; simp [SessionStore.canUndo]
  · intro s; simp [undoButtonDisabled, and_assoc]
  · intro h
    constructor
    · intro hn
      by_contra hne
      obtain ⟨e, he⟩ :=
        Option.isSome_iff_exists.mp (List.getLast?_isSome.mpr hne)
      simp [popLast, he] at hn
    · rintro rfl; rfl
  · intro prompt h h2 e _
    exact ⟨(h2.map TokenHistoryItem.token_text).flatten, rfl⟩

/-- Witness for C5's amended theorem: popping the single-entry history leaves a
text that still starts with the prompt. -/
theorem canUndo_popLast_spec_witness :
    ∃ t, historyCurrentText ('p' :: []) [] = ('p' :: []) ++ t :=
  canUndo_popLast_spec.2.2.2 ('p' :: []) [historyItem] [] historyItem rfl

theorem calculateWedgesGo_fst (a : ℚ) (ts : List TokenData) :
    (calculateWedgesGo a ts).1 = a + tokenProbSum ts * 360 := by
  induction ts generalizing a with
  | nil => simp [calculateWedgesGo, tokenProbSum]
  | cons t ts ih =>
    simp only [calculateWedgesGo, tokenProbSum, List.map_cons, List.sum_cons]
    rw [ih]
    simp [tokenProbSum]
    ring

theorem calculateWedgesGo_length (a : ℚ) (ts : List TokenData) :
    (calculateWedgesGo a ts).2.length = ts.length := by
  induction ts generalizing a with
  | nil => simp [calculateWedgesGo]
  | cons t ts ih => simp [calculateWedgesGo, ih]

theorem calculateWedgesGo_isOther (a : ℚ) (ts : List TokenData) :
    ∀ w ∈ (calculateWedgesGo a ts).2, w.isOther = false := by
  induction ts generalizing a with
  | nil => simp [calculateWedgesGo]
  | cons t ts ih =>
    intro w hw
    simp only [calculateWedgesGo, List.mem_cons] at hw
    rcases hw with rfl | hw
    · rfl
    · exact ih _ w hw

theorem calculateWedgesGo_width (a : ℚ) (ts : List TokenData) :
    ∀ w ∈ (calculateWedgesGo a ts).2,
      w.endAngle = w.startAngle + w.probability * 360 := by
  induction ts generalizing a with
  | nil => simp [calculateWedgesGo]
  | cons t ts ih =>
    intro w hw
    simp only [calculateWedgesGo, List.mem_cons] at hw
    rcases hw with rfl | hw
    · rfl
    · exact ih _ w hw

theorem calculateWedgesGo_chained (a : ℚ) (ts : List TokenData)
    (rest : List Wedge) (hrest : Chained (calculateWedgesGo a ts).1 rest) :
    Chained a ((calculateWedgesGo a ts).2 ++ rest) := by
  induction ts generalizing a with
  | nil => simpa [calculateWedgesGo] using hrest
  | cons t ts ih =>
    simp only [calculateWedgesGo, List.cons_append]
    exact ⟨rfl, ih _ hrest⟩

theorem chained_head (a : ℚ) (l : List Wedge) (hc : Chained a l)
    (h : 0 < l.length) : (l.get ⟨0, h⟩).startAngle = a := by
  cases l with
  | nil => cases h
  | cons w ws => exact hc.1

theorem chained_get_succ (a : ℚ) (l : List Wedge) (hc : Chained a l) :
    ∀ i (h : i + 1 < l.length),
      (l.get ⟨i + 1, h⟩).startAngle =
        (l.get ⟨i, Nat.lt_of_succ_lt h⟩).endAngle := by
  induction l generalizing a with
  | nil => intro i h; cases h
  | cons w ws ih =>
    intro i h
    cases i with
    | zero =>
      have hws : 0 < ws.length := Nat.lt_of_succ_lt_succ h
      exact chained_head w.endAngle ws hc.2 hws
    | succ n =>
      exact ih w.endAngle hc.2 n (Nat.lt_of_succ_lt_succ h)

theorem calculateWedges_chained (tokens : List TokenData) (oc : OtherCategory) :
    Chained (-90) (calculateWedges tokens oc) := by
  by_cases h : 0 < oc.total_probability
  · simp only [calculateWedges, if_pos h]
    exact calculateWedgesGo_chained _ _ _ ⟨rfl, trivial⟩
  · simp only [calculateWedges, if_neg h]
    have := calculateWedgesGo_chained (-90) tokens [] trivial
    simpa using this

theorem calculateWedgesGo_getLast (a : ℚ) (ts : List TokenData) (hts : ts ≠ []) :
    ∃ w, (calculateWedgesGo a ts).2.getLast? = some w ∧
      w.endAngle = (calculateWedgesGo a ts).1 := by
  induction ts generalizing a with
  | nil => exact absurd rfl hts
  | cons t ts ih =>
    by_cases h : ts = []
    · subst h
      exact ⟨_, rfl, rfl⟩
    · obtain ⟨w, hw, he⟩ := ih (a + t.probability * 360) h
      refine ⟨w, ?_, he⟩
      have hne : (calculateWedgesGo (a + t.probability * 360) ts).2 ≠ [] := by
        intro hnil
        have := calculateWedgesGo_length (a + t.probability * 360) ts
        rw [hnil] at this
        exact h (List.length_eq_zero.mp this.symm)
      obtain ⟨w2, ws2, hws2⟩ := List.exists_cons_of_ne_nil hne
      simp only [calculateWedgesGo]
      rw [hws2] at hw ⊢
      rw [List.getLast?_cons_cons]
      exact hw

/-- C4: calculateWedges emits an "Other" wedge iff `other.total_probability` is
positive; with no above-threshold tokens and positive other mass the result is
exactly one wedge (the wheel degenerates to one segment); with zero other mass
the result is exactly the per-token wedges and none of them is an "Other"
wedge. -/
theorem calculateWedges_other_wedge_iff (tokens : List TokenData)
    (oc : OtherCategory) :
    ((∃ w ∈ calculateWedges tokens oc, w.isOther = true) ↔
        0 < oc.total_probability) ∧
    (tokens = [] → 0 < oc.total_probability →
      (calculateWedges tokens oc).length = 1) ∧
    (oc.total_probability = 0 →
      calculateWedges tokens oc = (calculateWedgesGo (-90) tokens).2 ∧
        (calculateWedges tokens oc).length = tokens.length ∧
        ∀ w ∈ calculateWedges tokens oc, w.isOther = false) := by
  refine ⟨?_, ?_, ?_⟩
  · constructor
    · rintro ⟨w, hw, ho⟩
      by_contra h
      rw [calculateWedges, if_neg h] at hw
      have := calculateWedgesGo_isOther (-90) tokens w hw
      rw [this] at ho
      cases ho
    · intro h
      rw [calculateWedges, if_pos h]
      exact ⟨_, List.mem_append_right _ (List.mem_singleton.mpr rfl), rfl⟩
  · rintro rfl h
    rw [calculateWedges, if_pos h]
    simp [calculateWedgesGo]
  · intro h
    have hneg : ¬ 0 < oc.total_probability := by rw [h]; exact lt_irrefl 0
    refine ⟨by rw [calculateWedges, if_neg hneg], ?_, ?_⟩
    · rw [calculateWedges, if_neg hneg]
      exact calculateWedgesGo_length (-90) tokens
    · rw [calculateWedges, if_neg hneg]
      exact calculateWedgesGo_isOther (-90) tokens

/-- Witness for C4 at the empty token list and a positive other mass: the
wheel degenerates to exactly one wedge. -/
theorem calculateWedges_other_wedge_iff_witness :
    (calculateWedges [] ocHalf).length = 1 :=
  (calculateWedges_other_wedge_iff [] ocHalf).2.1 rfl (by norm_num [ocHalf])

/-- C9: the wedges returned by calculateWedges are contiguous: the first wedge
starts at -90 degrees, each subsequent wedge starts where the previous one
ends, every wedge spans `probability * 360` degrees, and when the token
probabilities plus the (nonnegative) other mass sum to 1 the last wedge ends
at exactly 270 degrees, so the wedges cover the full circle. -/
theorem calculateWedges_contiguous (tokens : List TokenData)
    (oc : OtherCategory) :
    (∀ h : 0 < (calculateWedges tokens oc).length,
        ((calculateWedges tokens oc).get ⟨0, h⟩).startAngle = -90) ∧
    (∀ i (h : i + 1 < (calculateWedges tokens oc).length),
        ((calculateWedges tokens oc).get ⟨i + 1, h⟩).startAngle =
          ((calculateWedges tokens oc).get
            ⟨i, Nat.lt_of_succ_lt h⟩).endAngle) ∧
    (∀ w ∈ calculateWedges tokens oc,
        w.endAngle = w.startAngle + w.probability * 360) ∧
    (0 ≤ oc.total_probability →
      tokenProbSum tokens + oc.total_probability = 1 →
        ∃ w, (calculateWedges tokens oc).getLast? = some w ∧
          w.endAngle = 270) := by
  refine ⟨?_, ?_, ?_, ?_⟩
  · intro h
    exact chained_head _ _ (calculateWedges_chained tokens oc) h
  · exact chained_get_succ _ _ (calculateWedges_chained tokens oc)
  · intro w hw
    by_cases h : 0 < oc.total_probability
    · rw [calculateWedges, if_pos h] at hw
      rcases List.mem_append.mp hw with hw | hw
      · exact calculateWedgesGo_width (-90) tokens w hw
      · rw [List.mem_singleton.mp hw]
    · rw [calculateWedges, if_neg h] at hw
      exact calculateWedgesGo_width (-90) tokens w hw
  · intro hnn hsum
    by_cases h : 0 < oc.total_probability
    · rw [calculateWedges, if_pos h]
      refine ⟨_, List.getLast?_concat _, ?_⟩
      show (calculateWedgesGo (-90) tokens).1 +
          oc.total_probability * 360 = 270
      rw [calculateWedgesGo_fst]
      linarith
    · have hzero : oc.total_probability = 0 := le_antisymm (not_lt.mp h) hnn
      have hS : tokenProbSum tokens = 1 := by rw [hzero] at hsum; linarith
      have hts : tokens ≠ [] := by
        rintro rfl
        simp [tokenProbSum] at hS
      obtain ⟨w, hw, he⟩ := calculateWedgesGo_getLast (-90) tokens hts
      refine ⟨w, ?_, ?_⟩
      · rw [calculateWedges, if_neg h]
        exact hw
      · rw [he, calculateWedgesGo_fst, hS]
        norm_num

/-- Witness for C9's full-circle conjunct: with half the mass on one token and
half in the other bucket the last wedge ends at 270 degrees. -/
theorem calculateWedges_contiguous_witness :
    ∃ w, (calculateWedges tokensHalf ocHalf).getLast? = some w ∧
      w.endAngle = 270 :=
  (calculateWedges_contiguous tokensHalf ocHalf).2.2.2 (by norm_num [ocHalf])
    (by norm_num [tokenProbSum, tokensHalf, ocHalf])

theorem selectLoop_nil (random c : ℚ) : selectLoop random c [] = none := rfl

theorem selectLoop_cons (random c : ℚ) (t : SelectedToken)
    (ts : List SelectedToken) :
    selectLoop random c (t :: ts) =
      if random ≤ c + t.probability then some t
      else selectLoop random (c + t.probability) ts := rfl

theorem cumProb_zero (l : List SelectedToken) : cumProb l 0 = 0 := by
  simp [cumProb, candProbSum]

theorem cumProb_cons_succ (t : SelectedToken) (ts : List SelectedToken)
    (k : Nat) : cumProb (t :: ts) (k + 1) = t.probability + cumProb ts k := by
  simp [cumProb, candProbSum, List.take_succ_cons]

theorem candProbSum_cons (t : SelectedToken) (ts : List SelectedToken) :
    candProbSum (t :: ts) = t.probability + candProbSum ts := by
  simp [candProbSum]

theorem cumProb_le_candProbSum (l : List SelectedToken) (k : Nat)
    (hnn : ∀ s ∈ l, 0 ≤ s.probability) : cumProb l k ≤ candProbSum l := by
  have hsplit : candProbSum l = cumProb l k + candProbSum (l.drop k) := by
    rw [cumProb]
    rw [show l = l.take k ++ l.drop k from (List.take_append_drop k l).symm]
    simp [candProbSum, List.take_append_drop]
  have hdrop : 0 ≤ candProbSum (l.drop k) := by
    apply List.sum_nonneg
    intro x hx
    obtain ⟨s, hs, rfl⟩ := List.mem_map.mp hx
    exact hnn s (List.mem_of_mem_drop hs)
  linarith

theorem selectLoop_first (random : ℚ) (c : ℚ) (l : List SelectedToken)
    (i : Nat) (hi : i < l.length)
    (hsel : random ≤ c + cumProb l (i + 1))
    (hfirst : ∀ j < i, c + cumProb l (j + 1) < random) :
    selectLoop random c l = some (l.get ⟨i, hi⟩) := by
  induction l generalizing c i with
  | nil => cases hi
  | cons t ts ih =>
    cases i with
    | zero =>
      have h0 : random ≤ c + t.probability := by
        rw [cumProb_cons_succ, cumProb_zero] at hsel
        linarith
      rw [selectLoop_cons, if_pos h0]
      rfl
    | succ n =>
      have h0 : c + t.probability < random := by
        have := hfirst 0 (Nat.succ_pos n)
        rw [cumProb_cons_succ, cumProb_zero] at this
        linarith
      rw [selectLoop_cons, if_neg (not_le.mpr h0)]
      have hsel2 : random ≤ (c + t.probability) + cumProb ts (n + 1) := by
        rw [cumProb_cons_succ] at hsel
        linarith
      have hfirst2 : ∀ j < n, (c + t.probability) + cumProb ts (j + 1) < random := by
        intro j hj
        have := hfirst (j + 1) (Nat.succ_lt_succ hj)
        rw [cumProb_cons_succ] at this
        linarith
      exact ih _ n (Nat.lt_of_succ_lt_succ hi) hsel2 hfirst2

theorem selectLoop_mem (random c : ℚ) (l : List SelectedToken)
    (t : SelectedToken) (h : selectLoop random c l = some t) : t ∈ l := by
  induction l generalizing c with
  | nil => cases h
  | cons u us ih =>
    rw [selectLoop_cons] at h
    by_cases hc : random ≤ c + u.probability
    · rw [if_pos hc] at h
      exact (Option.some_inj.mp h) ▸ List.mem_cons_self u us
    · rw [if_neg hc] at h
      exact List.mem_cons_of_mem u (ih _ h)

theorem selectLoop_eq_none (random c : ℚ) (l : List SelectedToken)
    (h : ∀ k < l.length, c + cumProb l (k + 1) < random) :
    selectLoop random c l = none := by
  induction l generalizing c with
  | nil => rfl
  | cons t ts ih =>
    have h0 : c + t.probability < random := by
      have := h 0 (Nat.succ_pos _)
      rw [cumProb_cons_succ, cumProb_zero] at this
      linarith
    rw [selectLoop_cons, if_neg (not_le.mpr h0)]
    apply ih
    intro k hk
    have := h (k + 1) (Nat.succ_lt_succ hk)
    rw [cumProb_cons_succ] at this
    linarith

theorem selectLoop_ne_none (random c : ℚ) (l : List SelectedToken)
    (hne : l ≠ []) (hr : random ≤ c + candProbSum l) :
    selectLoop random c l ≠ none := by
  induction l generalizing c with
  | nil => exact absurd rfl hne
  | cons t ts ih =>
    rw [selectLoop_cons]
    by_cases hc : random ≤ c + t.probability
    · rw [if_pos hc]
      exact Option.some_ne_none t
    · rw [if_neg hc]
      by_cases hts : ts = []
      · subst hts
        rw [candProbSum_cons] at hr
        simp [candProbSum] at hr
        exact absurd hr hc
      · have hr2 : random ≤ (c + t.probability) + candProbSum ts := by
          rw [candProbSum_cons] at hr
          linarith
        exact ih (c + t.probability) hts hr2

theorem selectLoop_append_some (random c : ℚ) (l1 l2 : List SelectedToken)
    (t : SelectedToken) (h : selectLoop random c l1 = some t) :
    selectLoop random c (l1 ++ l2) = some t := by
  induction l1 generalizing c with
  | nil => cases h
  | cons u us ih =>
    rw [selectLoop_cons] at h
    rw [List.cons_append, selectLoop_cons]
    by_cases hc : random ≤ c + u.probability
    · rw [if_pos hc] at h ⊢
      exact h
    · rw [if_neg hc] at h ⊢
      exact ih _ h

theorem selectLoop_append_none (random c : ℚ) (l1 l2 : List SelectedToken)
    (h : selectLoop random c l1 = none) :
    selectLoop random c (l1 ++ l2) =
      selectLoop random (c + candProbSum l1) l2 := by
  induction l1 generalizing c with
  | nil => simp [candProbSum]
  | cons u us ih =>
    rw [selectLoop_cons] at h
    rw [List.cons_append, selectLoop_cons]
    by_cases hc : random ≤ c + u.probability
    · rw [if_pos hc] at h
      cases h
    · rw [if_neg hc] at h ⊢
      rw [ih _ h, candProbSum_cons]
      ring_nf

theorem tokenCandidates_isOther (tokens : List TokenData) (wedges : List Wedge) :
    ∀ s ∈ tokenCandidates tokens wedges, s.isOther = false := by
  intro s hs
  obtain ⟨p, hp, rfl⟩ := List.mem_map.mp hs
  rfl

theorem tokenCandidates_nonneg (tokens : List TokenData) (wedges : List Wedge)
    (hnn : ∀ t ∈ tokens, 0 ≤ t.probability) :
    ∀ s ∈ tokenCandidates tokens wedges, 0 ≤ s.probability := by
  intro s hs
  obtain ⟨p, hp, rfl⟩ := List.mem_map.mp hs
  have hmem : p.2 ∈ tokens := by
    have := List.mem_map_of_mem Prod.snd hp
    rwa [List.enum_map_snd] at this
  exact hnn p.2 hmem

theorem tokenCandidates_length (tokens : List TokenData) (wedges : List Wedge) :
    (tokenCandidates tokens wedges).length = tokens.length := by
  simp [tokenCandidates]

theorem candProbSum_tokenCandidates (tokens : List TokenData)
    (wedges : List Wedge) :
    candProbSum (tokenCandidates tokens wedges) = tokenProbSum tokens := by
  unfold candProbSum tokenCandidates tokenProbSum
  rw [List.map_map]
  rw [show (SelectedToken.probability ∘ fun p : Nat × TokenData =>
      ({ token_id := some p.2.token_id, token_text := some p.2.token_text,
         probability := p.2.probability, isOther := false,
         wedge := wedges[p.1]? } : SelectedToken)) =
      TokenData.probability ∘ Prod.snd from rfl]
  rw [← List.map_map, List.enum_map_snd]

theorem getLast_append_singleton {α : Type} (l : List α) (a : α)
    (h : l ++ [a] ≠ []) : (l ++ [a]).getLast h = a := by
  have h1 := List.getLast?_eq_getLast (l ++ [a]) h
  have h2 := List.getLast?_concat (a := a) l
  rw [h1] at h2
  exact Option.some_inj.mp h2

/-- C1: with the uniform draw `random` made explicit, selectRandomToken walks
the candidate list (the above-threshold tokens in their given order, then the
"Other" entry) accumulating probability mass and returns the first candidate
whose cumulative mass meets or exceeds the draw. -/
theorem selectRandomToken_first_hit (tokens : List TokenData)
    (oc : OtherCategory) (wedges : List Wedge) (random : ℚ) (i : Nat)
    (hi : i < (allCandidates tokens oc wedges).length)
    (hsel : random ≤ cumProb (allCandidates tokens oc wedges) (i + 1))
    (hfirst : ∀ j < i,
        cumProb (allCandidates tokens oc wedges) (j + 1) < random) :
    selectRandomToken tokens oc wedges random =
      (allCandidates tokens oc wedges).get ⟨i, hi⟩ := by
  have h := selectLoop_first random 0 (allCandidates tokens oc wedges) i hi
    (by rw [zero_add]; exact hsel)
    (fun j hj => by rw [zero_add]; exact hfirst j hj)
  unfold selectRandomToken
  rw [h]

theorem allCandidates_tokensTwo :
    allCandidates tokensTwo ocQuarter [] =
      [{ token_id := some 1, token_text := some ('a' :: []),
         probability := 1 / 2, isOther := false, wedge := none },
       { token_id := some 2, token_text := some ('b' :: []),
         probability := 1 / 4, isOther := false, wedge := none },
       { token_id := none, token_text := none, probability := 1 / 4,
         isOther := true, wedge := none }] := rfl

/-- Witness for C1: the draw 3/5 falls within the second token's cumulative
span (cumulative masses 1/2 then 3/4), so the second token is selected. -/
theorem selectRandomToken_first_hit_witness :
    selectRandomToken tokensTwo ocQuarter [] (3 / 5) =
      { token_id := some 2, token_text := some ('b' :: []),
        probability := 1 / 4, isOther := false, wedge := none } := by
  have hi : 1 < (allCandidates tokensTwo ocQuarter []).length := by
    rw [allCandidates_tokensTwo]
    norm_num
  have h := selectRandomToken_first_hit tokensTwo ocQuarter [] (3 / 5) 1 hi
    (by rw [cumProb, allCandidates_tokensTwo]
        norm_num [candProbSum])
    (by intro j hj
        have hj0 : j = 0 := by omega
        subst hj0
        rw [cumProb, allCandidates_tokensTwo]
        norm_num [candProbSum])
  rw [h]
  rfl

theorem selectRandomToken_isOther_iff (tokens : List TokenData)
    (oc : OtherCategory) (wedges : List Wedge) (random : ℚ) :
    ((selectRandomToken tokens oc wedges random).isOther = true ↔
      selectLoop random 0 (tokenCandidates tokens wedges) = none) := by
  cases hsel : selectLoop random 0 (tokenCandidates tokens wedges) with
  | some t =>
    have hall : selectLoop random 0 (allCandidates tokens oc wedges) = some t := by
      rw [allCandidates]
      exact selectLoop_append_some random 0 _ _ t hsel
    have hres : selectRandomToken tokens oc wedges random = t := by
      unfold selectRandomToken
      rw [hall]
    have ht : t.isOther = false :=
      tokenCandidates_isOther tokens wedges t (selectLoop_mem _ _ _ _ hsel)
    rw [hres, ht]
    simp
  | none =>
    have hall : selectLoop random 0 (allCandidates tokens oc wedges) =
        selectLoop random (0 + candProbSum (tokenCandidates tokens wedges))
          [otherCandidate oc tokens wedges] := by
      rw [allCandidates]
      exact selectLoop_append_none random 0 _ _ hsel
    by_cases hr : random ≤
        (0 + candProbSum (tokenCandidates tokens wedges)) +
          (otherCandidate oc tokens wedges).probability
    · have hres : selectRandomToken tokens oc wedges random =
          otherCandidate oc tokens wedges := by
        unfold selectRandomToken
        rw [hall, selectLoop_cons, if_pos hr]
      rw [hres]
      simp [otherCandidate]
    · have hloop : selectLoop random 0 (allCandidates tokens oc wedges) = none := by
        rw [hall, selectLoop_cons, if_neg hr]
        rfl
      have hres : selectRandomToken tokens oc wedges random =
          otherCandidate oc tokens wedges := by
        unfold selectRandomToken
        rw [hloop]
        exact getLast_append_singleton _ _ _
      rw [hres]
      simp [otherCandidate]

theorem selectLoop_tokenCandidates_none_iff (tokens : List TokenData)
    (wedges : List Wedge) (random : ℚ)
    (hnn : ∀ t ∈ tokens, 0 ≤ t.probability) :
    (selectLoop random 0 (tokenCandidates tokens wedges) = none ↔
      (tokens = [] ∨ tokenProbSum tokens < random)) := by
  constructor
  · intro h
    by_cases ht : tokens = []
    · exact Or.inl ht
    · right
      by_contra hlt
      have hr : random ≤ tokenProbSum tokens := not_lt.mp hlt
      have htc : tokenCandidates tokens wedges ≠ [] := by
        intro hnil
        have hlen := tokenCandidates_length tokens wedges
        rw [hnil] at hlen
        exact ht (List.length_eq_zero.mp hlen.symm)
      exact selectLoop_ne_none random 0 _ htc
        (by rw [candProbSum_tokenCandidates]; linarith) h
  · intro h
    rcases h with rfl | hlt
    · rfl
    · apply selectLoop_eq_none
      intro k hk
      have hle := cumProb_le_candProbSum (tokenCandidates tokens wedges) (k + 1)
        (tokenCandidates_nonneg tokens wedges hnn)
      rw [candProbSum_tokenCandidates] at hle
      linarith

/-- C6 fails as stated: with an empty above-threshold list and zero other
mass, the spin flow still issues a `{ category: "other" }` selection request,
because `selectRandomToken` falls back to the always-appended "Other" entry
instead of signalling an error. -/
theorem handleSpin_zero_mass_cex :
    ocZero.total_probability = 0 ∧
      (handleSpin [] ocZero (1 / 2)).category = some "other".toList := by
  refine ⟨rfl, ?_⟩
  have hloop : selectLoop (1 / 2 : ℚ) 0
      (allCandidates [] ocZero (calculateWedges [] ocZero)) = none := by
    rw [show allCandidates [] ocZero (calculateWedges [] ocZero) =
        [otherCandidate ocZero [] (calculateWedges [] ocZero)] from rfl]
    rw [selectLoop_cons, if_neg (by norm_num [otherCandidate, ocZero])]
    rfl
  have hres : selectRandomToken [] ocZero (calculateWedges [] ocZero) (1 / 2) =
      otherCandidate ocZero [] (calculateWedges [] ocZero) := by
    unfold selectRandomToken
    rw [hloop]
    exact getLast_append_singleton _ _ _
  show (handleSpin [] ocZero (1 / 2)).category = some "other".toList
  simp only [handleSpin]
  rw [hres]
  rfl

/-- C6 (amended): for a snapshot with zero other mass and nonnegative token
probabilities, the spin flow issues an `{ category: "other" }` selection
request exactly when the above-threshold list is empty or the draw exceeds
the total above-threshold mass; in particular, with a non-empty token list
and a draw within the token mass no "other" request is issued — the flow
does not otherwise refuse tail selection when the tail is empty. -/
theorem handleSpin_other_request_iff (tokens : List TokenData)
    (oc : OtherCategory) (random : ℚ)
    (_hmass : oc.total_probability = 0)
    (hnn : ∀ t ∈ tokens, 0 ≤ t.probability) :
    ((handleSpin tokens oc random).category = some "other".toList ↔
      (tokens = [] ∨ tokenProbSum tokens < random)) := by
  rw [← selectLoop_tokenCandidates_none_iff tokens (calculateWedges tokens oc)
    random hnn]
  rw [← selectRandomToken_isOther_iff tokens oc (calculateWedges tokens oc)
    random]
  by_cases ho : (selectRandomToken tokens oc (calculateWedges tokens oc)
      random).isOther = true
  · simp [handleSpin, ho]
  · rw [Bool.not_eq_true] at ho
    simp [handleSpin, ho]

/-- Witness for C6's amended theorem: with one token of mass 1/2, zero other
mass and draw 1/4 (within the token mass), no "other" request is issued. -/
theorem handleSpin_other_request_iff_witness :
    (handleSpin tokensHalf ocZero (1 / 4)).category ≠ some "other".toList := by
  intro h
  have hiff := handleSpin_other_request_iff tokensHalf ocZero (1 / 4) rfl
    (by intro t ht
        simp [tokensHalf] at ht
        subst ht
        norm_num)
  rcases hiff.mp h with h1 | h2
  · simp [tokensHalf] at h1
  · norm_num [tokenProbSum, tokensHalf] at h2

/-- C10: the candidate list is never empty — it always ends with the "Other"
entry — and whenever the draw exceeds the entire accumulated probability mass
(tokens plus other bucket, all masses nonnegative) the function returns the
last candidate, which is the "Other" entry, even when the other bucket has
zero mass. -/
theorem selectRandomToken_fallback_other (tokens : List TokenData)
    (oc : OtherCategory) (wedges : List Wedge) (random : ℚ)
    (hnn : ∀ t ∈ tokens, 0 ≤ t.probability)
    (hoc : 0 ≤ oc.total_probability)
    (hr : candProbSum (allCandidates tokens oc wedges) < random) :
    (allCandidates tokens oc wedges).length = tokens.length + 1 ∧
      (allCandidates tokens oc wedges).getLast? =
        some (otherCandidate oc tokens wedges) ∧
      selectRandomToken tokens oc wedges random =
        otherCandidate oc tokens wedges ∧
      (selectRandomToken tokens oc wedges random).isOther = true := by
  have hnn2 : ∀ s ∈ allCandidates tokens oc wedges, 0 ≤ s.probability := by
    intro s hs
    rw [allCandidates] at hs
    rcases List.mem_append.mp hs with hs | hs
    · exact tokenCandidates_nonneg tokens wedges hnn s hs
    · rw [List.mem_singleton.mp hs]
      exact hoc
  have hloop : selectLoop random 0 (allCandidates tokens oc wedges) = none := by
    apply selectLoop_eq_none
    intro k hk
    have hle := cumProb_le_candProbSum (allCandidates tokens oc wedges)
      (k + 1) hnn2
    linarith
  have hres : selectRandomToken tokens oc wedges random =
      otherCandidate oc tokens wedges := by
    unfold selectRandomToken
    rw [hloop]
    exact getLast_append_singleton _ _ _
  refine ⟨?_, ?_, hres, by rw [hres]; rfl⟩
  · rw [allCandidates, List.length_append, tokenCandidates_length]
    rfl
  · rw [allCandidates]
    exact List.getLast?_concat _

/-- Witness for C10: one token of mass 1/2, an empty (zero-mass) other bucket
and a draw of 3/4 that exceeds the whole accumulated mass. -/
theorem selectRandomToken_fallback_other_witness :
    (allCandidates tokensHalf ocZero []).length = tokensHalf.length + 1 ∧
      (allCandidates tokensHalf ocZero []).getLast? =
        some (otherCandidate ocZero tokensHalf []) ∧
      selectRandomToken tokensHalf ocZero [] (3 / 4) =
        otherCandidate ocZero tokensHalf [] ∧
      (selectRandomToken tokensHalf ocZero [] (3 / 4)).isOther = true :=
  selectRandomToken_fallback_other tokensHalf ocZero [] (3 / 4)
    (by intro t ht
        simp [tokensHalf] at ht
        subst ht
        norm_num)
    le_rfl
    (by rw [show allCandidates tokensHalf ocZero [] =
          [{ token_id := some 1, token_text := some ('a' :: []),
             probability := 1 / 2, isOther := false, wedge := none },
           { token_id := none, token_text := none, probability := 0,
             isOther := true, wedge := none }] from rfl]
        norm_num [candProbSum])
